import Mathlib

/-!
Verification of the key-metadata record model of `crypto/keyring/info.go`
(cosmos-sdk keyring `Info` interface, its four variants `localInfo`,
`ledgerInfo`, `offlineInfo`, `multiInfo`, the constructor `NewMultiInfo`,
and the length-prefixed discriminated codec `marshalInfo`/`unmarshalInfo`).

Shallow embedding conventions:
* Go strings become Lean `String`; `uint` becomes `Nat`.
* Byte sequences are modelled as `List Nat` of byte tokens.
* `crypto.PubKey` is modelled as a sum of an ordinary key (opaque bytes)
  and a threshold-aggregate key (`multisig.PubKeyMultisigThreshold`,
  carrying `K : uint` and the ordered member list `PubKeys`).
* Functions that can fail return `Except`/`Option`; a Go run-time abort
  (failed type assertion, i.e. a panic) is a distinguished constructor of
  the result type, never an error value returned to the caller.
-/

namespace Keyring

/-- Model of `crypto.PubKey` (tendermint). An ordinary public key is an
opaque byte string; `multisig.PubKeyMultisigThreshold` carries the
threshold `K` and the ordered member key list `PubKeys`. -/
inductive PubKey where
  | single (bytes : List Nat)
  | multi (k : Nat) (pubKeys : List PubKey)
  deriving Repr

/-- Model of `hd.BIP44Params` (purpose, coin type, account, change,
address index). -/
structure BIP44Params where
  purpose : Nat
  coinType : Nat
  account : Nat
  change : Bool
  addressIndex : Nat
  deriving Repr, DecidableEq

/-- `SigningAlgo` is a string-typed algorithm tag. -/
def SigningAlgo := String
  deriving DecidableEq, Repr

/-- Modelled from the spec: the fixed "multisig" algorithm tag `MultiAlgo`
(declared outside `info.go`); MultiSig records always report it. -/
def MultiAlgo : SigningAlgo := "multi"

/-- Model of the `KeyType` tags `TypeLocal`, `TypeLedger`, `TypeOffline`,
`TypeMulti` (declared outside `info.go`; one tag per variant). -/
inductive KeyType where
  | typeLocal
  | typeLedger
  | typeOffline
  | typeMulti
  deriving DecidableEq, Repr

/-- `localInfo`: public information about a locally stored key.
`Algo` is the last field, as in the source struct. -/
structure localInfo where
  name : String
  pubKey : PubKey
  privKeyArmor : String
  algo : SigningAlgo
  deriving Repr

/-- `ledgerInfo`: public information about a Ledger key. -/
structure ledgerInfo where
  name : String
  pubKey : PubKey
  path : BIP44Params
  algo : SigningAlgo
  deriving Repr

/-- `offlineInfo`: public information about an offline key. -/
structure offlineInfo where
  name : String
  pubKey : PubKey
  algo : SigningAlgo
  deriving Repr

/-- `multisigPubKeyInfo`: one member entry (public key, weight). -/
structure multisigPubKeyInfo where
  pubKey : PubKey
  weight : Nat
  deriving Repr

/-- `multiInfo`: public information about a multisig key. -/
structure multiInfo where
  name : String
  pubKey : PubKey
  threshold : Nat
  pubKeys : List multisigPubKeyInfo
  deriving Repr

/-- The closed union of the four `Info` implementations
(`localInfo`, `ledgerInfo`, `offlineInfo`, `multiInfo`). -/
inductive Info where
  | local_ (i : localInfo)
  | ledger (i : ledgerInfo)
  | offline (i : offlineInfo)
  | multi (i : multiInfo)
  deriving Repr

/-- Modelled from the spec: the external address-derivation collaborator
`PubKey.Address().Bytes()` — a deterministic pure function of the public
key's serialized form (the concrete hash is outside this model; any
fixed deterministic function of the key represents it). -/
def deriveAddress : PubKey → List Nat
  | .single bytes => 0 :: bytes
  | .multi k pubKeys => 1 :: k :: pubKeys.length :: []

/-- `GetType` of each variant: `TypeLocal` / `TypeLedger` / `TypeOffline`
/ `TypeMulti`. -/
def Info.GetType : Info → KeyType
  | .local_ _ => .typeLocal
  | .ledger _ => .typeLedger
  | .offline _ => .typeOffline
  | .multi _ => .typeMulti

/-- `GetName` of each variant: returns `i.Name`. -/
def Info.GetName : Info → String
  | .local_ i => i.name
  | .ledger i => i.name
  | .offline i => i.name
  | .multi i => i.name

/-- `GetPubKey` of each variant: returns `i.PubKey`. -/
def Info.GetPubKey : Info → PubKey
  | .local_ i => i.pubKey
  | .ledger i => i.pubKey
  | .offline i => i.pubKey
  | .multi i => i.pubKey

/-- `GetAddress` of each variant: returns `i.PubKey.Address().Bytes()`. -/
def Info.GetAddress : Info → List Nat
  | .local_ i => deriveAddress i.pubKey
  | .ledger i => deriveAddress i.pubKey
  | .offline i => deriveAddress i.pubKey
  | .multi i => deriveAddress i.pubKey

/-- `GetAlgo` of each variant: `localInfo`, `ledgerInfo` and `offlineInfo`
return the stored `i.Algo`; `multiInfo` returns the constant `MultiAlgo`. -/
def Info.GetAlgo : Info → SigningAlgo
  | .local_ i => i.algo
  | .ledger i => i.algo
  | .offline i => i.algo
  | .multi _ => MultiAlgo

/-- The error message produced by `fmt.Errorf` in the `GetPath`
implementations of `localInfo`, `offlineInfo` and `multiInfo`; it is the
spec's `PathUnavailable` signal. -/
def pathUnavailableMsg : String := "BIP44 Paths are not available for this type"

/-- `GetPath` of each variant: `ledgerInfo` returns a copy of the stored
path with a nil error; the other three return a nil path and the
`PathUnavailable` error. -/
def Info.GetPath : Info → Except String BIP44Params
  | .local_ _ => .error pathUnavailableMsg
  | .ledger i => .ok i.path
  | .offline _ => .error pathUnavailableMsg
  | .multi _ => .error pathUnavailableMsg

/-- `newLocalInfo`. -/
def newLocalInfo (name : String) (pub : PubKey) (privArmor : String)
    (algo : SigningAlgo) : Info :=
  .local_ ⟨name, pub, privArmor, algo⟩

/-- `newLedgerInfo`. -/
def newLedgerInfo (name : String) (pub : PubKey) (path : BIP44Params)
    (algo : SigningAlgo) : Info :=
  .ledger ⟨name, pub, path, algo⟩

/-- `newOfflineInfo`. -/
def newOfflineInfo (name : String) (pub : PubKey) (algo : SigningAlgo) : Info :=
  .offline ⟨name, pub, algo⟩

/-- Result of a Go function of return type `Info` whose body may panic:
`NewMultiInfo` has no error return, so the only non-`ok` outcome is a
run-time abort (`panicked`, raised by the failed type assertion
`pub.(multisig.PubKeyMultisigThreshold)`). -/
inductive CtorResult where
  | ok (i : Info)
  | panicked
  deriving Repr

/-- `NewMultiInfo`: asserts the key to `multisig.PubKeyMultisigThreshold`
(panicking on any other key), gives every member weight 1 in order, and
wraps name, key, `K` and the member entries as a `multiInfo`. -/
def NewMultiInfo (name : String) (pub : PubKey) : CtorResult :=
  match pub with
  | .multi k pubKeys =>
      .ok (.multi ⟨name, pub, k, pubKeys.map (fun pk => ⟨pk, 1⟩)⟩)
  | .single _ => .panicked

/-! ### The discriminated codec

`marshalInfo` / `unmarshalInfo` delegate to `CryptoCdc` (the shared amino
codec), which is declared outside `info.go`. Modelled from the spec: the
persisted layout is `[length prefix][1-byte variant discriminant][variant
fields in fixed order]`, with the signing-algorithm field serialized last
within each variant; the decoder validates the length prefix against the
remaining buffer (`TruncatedInput` / `TrailingBytes`), rejects unknown
discriminants (`UnknownVariant`) and malformed fields (`MalformedField`).
Bytes are modelled as `Nat` tokens. -/

/-- The decode-error kinds of the codec. -/
inductive DecodeErr where
  | truncatedInput
  | trailingBytes
  | unknownVariant
  | malformedField
  deriving DecidableEq, Repr

/-- Modelled from the spec: a string field serializes as its length
followed by its character tokens. -/
def encStr (s : String) : List Nat :=
  s.data.length :: s.data.map Char.toNat

/-- Field decoder for a string: reads the length then that many tokens. -/
def decStr : List Nat → Option (String × List Nat)
  | [] => none
  | n :: rest =>
      if n ≤ rest.length then
        some (String.mk ((rest.take n).map Char.ofNat), rest.drop n)
      else none

mutual
/-- Modelled from the spec: public-key field encoding. An ordinary key is
tag `0` with its length-prefixed bytes; a threshold-aggregate key is tag
`1` with `K`, the member count, and the members in order. -/
def PubKey.enc : PubKey → List Nat
  | .single bytes => 0 :: bytes.length :: bytes
  | .multi k pubKeys => 1 :: k :: pubKeys.length :: PubKey.encList pubKeys

/-- Concatenated encodings of a member-key list, in order. -/
def PubKey.encList : List PubKey → List Nat
  | [] => []
  | pk :: pks => PubKey.enc pk ++ PubKey.encList pks
end

mutual
/-- Field decoder for a public key; `fuel` bounds the nesting depth. -/
def decPubKey : Nat → List Nat → Option (PubKey × List Nat)
  | 0, _ => none
  | _ + 1, 0 :: n :: rest =>
      if n ≤ rest.length then some (.single (rest.take n), rest.drop n)
      else none
  | fuel + 1, 1 :: k :: n :: rest =>
      match decPubKeyList fuel n rest with
      | some (keys, r) => some (.multi k keys, r)
      | none => none
  | _ + 1, _ => none

/-- Decodes `n` consecutive public keys. -/
def decPubKeyList : Nat → Nat → List Nat → Option (List PubKey × List Nat)
  | _, 0, input => some ([], input)
  | 0, _ + 1, _ => none
  | fuel + 1, n + 1, input =>
      match decPubKey fuel input with
      | some (pk, r) =>
          match decPubKeyList fuel n r with
          | some (pks, r2) => some (pk :: pks, r2)
          | none => none
      | none => none
end

mutual
/-- Fuel sufficient to decode the encoding of a given public key. -/
def pkFuel : PubKey → Nat
  | .single _ => 1
  | .multi _ pubKeys => pkListFuel pubKeys + 1

/-- Fuel sufficient to decode the encodings of a given member list. -/
def pkListFuel : List PubKey → Nat
  | [] => 1
  | pk :: pks => max (pkFuel pk) (pkListFuel pks) + 1
end

/-- Modelled from the spec: a BIP44 derivation path serializes as its five
components in order (change as `0`/`1`). -/
def encPath (p : BIP44Params) : List Nat :=
  [p.purpose, p.coinType, p.account, if p.change then 1 else 0, p.addressIndex]

/-- Field decoder for a BIP44 derivation path. -/
def decPath : List Nat → Option (BIP44Params × List Nat)
  | a :: b :: c :: d :: e :: rest => some (⟨a, b, c, d == 1, e⟩, rest)
  | _ => none

/-- Concatenated member entries of a MultiSig record: each entry is the
member's public key followed by its weight. -/
def encMPKBody : List multisigPubKeyInfo → List Nat
  | [] => []
  | m :: ms => PubKey.enc m.pubKey ++ m.weight :: encMPKBody ms

/-- Modelled from the spec: the member-entry sequence serializes as its
count followed by the entries in order. -/
def encMPKList (ms : List multisigPubKeyInfo) : List Nat :=
  ms.length :: encMPKBody ms

/-- Decodes `n` consecutive member entries. -/
def decMPKList (fuel : Nat) : Nat → List Nat → Option (List multisigPubKeyInfo × List Nat)
  | 0, input => some ([], input)
  | n + 1, input =>
      match decPubKey fuel input with
      | some (pk, w :: r) =>
          match decMPKList fuel n r with
          | some (ms, r2) => some (⟨pk, w⟩ :: ms, r2)
          | none => none
      | _ => none

/-- The encoded body of a record: the variant discriminant (Local `0`,
Ledger `1`, Offline `2`, MultiSig `3`) followed by the variant's fields in
the source struct order, the signing-algorithm field last. -/
def encInfoBody : Info → List Nat
  | .local_ i =>
      0 :: (encStr i.name ++ PubKey.enc i.pubKey ++ encStr i.privKeyArmor ++ encStr i.algo)
  | .ledger i =>
      1 :: (encStr i.name ++ PubKey.enc i.pubKey ++ encPath i.path ++ encStr i.algo)
  | .offline i =>
      2 :: (encStr i.name ++ PubKey.enc i.pubKey ++ encStr i.algo)
  | .multi i =>
      3 :: (encStr i.name ++ PubKey.enc i.pubKey ++ i.threshold :: encMPKList i.pubKeys)

/-- `marshalInfo`: length-prefixed encoding of a record. -/
def marshalInfo (i : Info) : List Nat :=
  (encInfoBody i).length :: encInfoBody i

/-- Field decoder for the Local variant's body. -/
def decodeLocal (fuel : Nat) (input : List Nat) : Except DecodeErr Info :=
  match decStr input with
  | some (name, r1) =>
      match decPubKey fuel r1 with
      | some (pk, r2) =>
          match decStr r2 with
          | some (armor, r3) =>
              match decStr r3 with
              | some (algo, r4) =>
                  if r4.isEmpty then .ok (.local_ ⟨name, pk, armor, algo⟩)
                  else .error .malformedField
              | none => .error .malformedField
          | none => .error .malformedField
      | none => .error .malformedField
  | none => .error .malformedField

/-- Field decoder for the HardwareDevice/Ledger variant's body. -/
def decodeLedger (fuel : Nat) (input : List Nat) : Except DecodeErr Info :=
  match decStr input with
  | some (name, r1) =>
      match decPubKey fuel r1 with
      | some (pk, r2) =>
          match decPath r2 with
          | some (path, r3) =>
              match decStr r3 with
              | some (algo, r4) =>
                  if r4.isEmpty then .ok (.ledger ⟨name, pk, path, algo⟩)
                  else .error .malformedField
              | none => .error .malformedField
          | none => .error .malformedField
      | none => .error .malformedField
  | none => .error .malformedField

/-- Field decoder for the Offline variant's body. -/
def decodeOffline (fuel : Nat) (input : List Nat) : Except DecodeErr Info :=
  match decStr input with
  | some (name, r1) =>
      match decPubKey fuel r1 with
      | some (pk, r2) =>
          match decStr r2 with
          | some (algo, r3) =>
              if r3.isEmpty then .ok (.offline ⟨name, pk, algo⟩)
              else .error .malformedField
          | none => .error .malformedField
      | none => .error .malformedField
  | none => .error .malformedField

/-- Field decoder for the MultiSig variant's body. -/
def decodeMulti (fuel : Nat) (input : List Nat) : Except DecodeErr Info :=
  match decStr input with
  | some (name, r1) =>
      match decPubKey fuel r1 with
      | some (pk, threshold :: cnt :: r2) =>
          match decMPKList fuel cnt r2 with
          | some (ms, r3) =>
              if r3.isEmpty then .ok (.multi ⟨name, pk, threshold, ms⟩)
              else .error .malformedField
          | none => .error .malformedField
      | some (_, _) => .error .malformedField
      | none => .error .malformedField
  | none => .error .malformedField

/-- `unmarshalInfo`: validates the length prefix, reads the discriminant,
dispatches to the matching variant's field decoder, and rejects unknown
discriminants. -/
def unmarshalInfo (bz : List Nat) : Except DecodeErr Info :=
  match bz with
  | [] => .error .truncatedInput
  | n :: body =>
      if body.length < n then .error .truncatedInput
      else if n < body.length then .error .trailingBytes
      else
        match body with
        | [] => .error .truncatedInput
        | 0 :: rest => decodeLocal bz.length rest
        | 1 :: rest => decodeLedger bz.length rest
        | 2 :: rest => decodeOffline bz.length rest
        | 3 :: rest => decodeMulti bz.length rest
        | _ :: _ => .error .unknownVariant

/-! ### Codec correctness lemmas -/

theorem decStr_encStr (s : String) (r : List Nat) :
    decStr (encStr s ++ r) = some (s, r) := by
  obtain ⟨data⟩ := s
  simp only [encStr, List.cons_append, decStr]
  rw [if_pos (by simp)]
  rw [List.take_left' (by simp), List.drop_left' (by simp)]
  simp [List.map_map, Function.comp_def, Char.ofNat_toNat]

theorem enc_length_pos (pk : PubKey) : 1 ≤ pk.enc.length := by
  cases pk <;> simp [PubKey.enc]

mutual
theorem pkFuel_le_encLen : (pk : PubKey) → pkFuel pk ≤ pk.enc.length
  | .single bs => by
      simp only [pkFuel, PubKey.enc, List.length_cons]
      omega
  | .multi k keys => by
      have h := pkListFuel_le_encLen keys
      simp only [pkFuel, PubKey.enc, List.length_cons]
      omega

theorem pkListFuel_le_encLen : (pks : List PubKey) → pkListFuel pks ≤ (PubKey.encList pks).length + 1
  | [] => by
      simp only [pkListFuel, PubKey.encList, List.length_nil]
      omega
  | pk :: pks => by
      have h1 := pkFuel_le_encLen pk
      have h2 := pkListFuel_le_encLen pks
      have h3 := enc_length_pos pk
      simp only [pkListFuel, PubKey.encList, List.length_append]
      omega
end

theorem decPubKey_encAux (fuel : Nat) :
    (∀ pk r, pkFuel pk ≤ fuel → decPubKey fuel (PubKey.enc pk ++ r) = some (pk, r)) ∧
    (∀ pks r, pkListFuel pks ≤ fuel →
      decPubKeyList fuel pks.length (PubKey.encList pks ++ r) = some (pks, r)) := by
  induction fuel with
  | zero =>
      refine ⟨fun pk r h => absurd h ?_, fun pks r h => absurd h ?_⟩
      · cases pk <;> simp [pkFuel]
      · cases pks <;> simp [pkListFuel]
  | succ fuel ih =>
      refine ⟨fun pk r h => ?_, fun pks r h => ?_⟩
      · match pk with
        | .single bs =>
            show decPubKey (fuel + 1) ((0 :: bs.length :: bs) ++ r) = some (.single bs, r)
            simp only [List.cons_append, decPubKey]
            rw [if_pos (by simp)]
            rw [List.take_left' rfl, List.drop_left' rfl]
        | .multi k keys =>
            have hks : pkListFuel keys ≤ fuel := by
              simp only [pkFuel] at h; omega
            show decPubKey (fuel + 1) ((1 :: k :: keys.length :: PubKey.encList keys) ++ r) =
              some (.multi k keys, r)
            simp only [List.cons_append, decPubKey, ih.2 keys r hks]
      · match pks with
        | [] =>
            show decPubKeyList (fuel + 1) ([] : List PubKey).length (PubKey.encList [] ++ r) =
              some ([], r)
            simp [PubKey.encList, decPubKeyList]
        | pk :: pks' =>
            have h1 : pkFuel pk ≤ fuel := by
              simp only [pkListFuel] at h; omega
            have h2 : pkListFuel pks' ≤ fuel := by
              simp only [pkListFuel] at h; omega
            show decPubKeyList (fuel + 1) (pks'.length + 1)
              ((PubKey.enc pk ++ PubKey.encList pks') ++ r) = some (pk :: pks', r)
            rw [List.append_assoc]
            simp only [decPubKeyList, ih.1 pk (PubKey.encList pks' ++ r) h1,
              ih.2 pks' r h2]

theorem decPubKey_enc (fuel : Nat) (pk : PubKey) (r : List Nat) (h : pkFuel pk ≤ fuel) :
    decPubKey fuel (PubKey.enc pk ++ r) = some (pk, r) :=
  (decPubKey_encAux fuel).1 pk r h

theorem decPath_encPath (p : BIP44Params) (r : List Nat) :
    decPath (encPath p ++ r) = some (p, r) := by
  obtain ⟨a, b, c, ch, e⟩ := p
  cases ch <;> simp [encPath, decPath]

theorem decMPKList_enc (fuel : Nat) (ms : List multisigPubKeyInfo) (r : List Nat)
    (h : ∀ m ∈ ms, pkFuel m.pubKey ≤ fuel) :
    decMPKList fuel ms.length (encMPKBody ms ++ r) = some (ms, r) := by
  induction ms generalizing r with
  | nil => simp [encMPKBody, decMPKList]
  | cons m ms ih =>
      have h1 : pkFuel m.pubKey ≤ fuel := h m (List.mem_cons_self m ms)
      have h2 : ∀ x ∈ ms, pkFuel x.pubKey ≤ fuel :=
        fun x hx => h x (List.mem_cons_of_mem m hx)
      show decMPKList fuel (ms.length + 1)
        ((PubKey.enc m.pubKey ++ m.weight :: encMPKBody ms) ++ r) = some (m :: ms, r)
      rw [List.append_assoc, List.cons_append]
      simp only [decMPKList, decPubKey_enc fuel m.pubKey _ h1, ih r h2]

theorem encLen_mem_le (m : multisigPubKeyInfo) (ms : List multisigPubKeyInfo)
    (hm : m ∈ ms) : (PubKey.enc m.pubKey).length ≤ (encMPKBody ms).length := by
  induction ms with
  | nil => cases hm
  | cons x ms ih =>
      simp only [encMPKBody, List.length_append, List.length_cons]
      rcases List.mem_cons.mp hm with h | h
      · subst h; omega
      · have := ih h; omega

theorem decStr_encStr' (s : String) : decStr (encStr s) = some (s, []) := by
  simpa using decStr_encStr s []

theorem decMPKList_enc' (fuel : Nat) (ms : List multisigPubKeyInfo)
    (h : ∀ m ∈ ms, pkFuel m.pubKey ≤ fuel) :
    decMPKList fuel ms.length (encMPKBody ms) = some (ms, []) := by
  simpa using decMPKList_enc fuel ms [] h

theorem decodeLocal_enc (fuel : Nat) (i : localInfo) (h : pkFuel i.pubKey ≤ fuel) :
    decodeLocal fuel
      (encStr i.name ++ PubKey.enc i.pubKey ++ encStr i.privKeyArmor ++ encStr i.algo) =
      .ok (.local_ i) := by
  simp only [List.append_assoc, decodeLocal, decStr_encStr,
    decPubKey_enc fuel i.pubKey _ h, decStr_encStr', List.isEmpty_nil, if_true]

theorem decodeLedger_enc (fuel : Nat) (i : ledgerInfo) (h : pkFuel i.pubKey ≤ fuel) :
    decodeLedger fuel
      (encStr i.name ++ PubKey.enc i.pubKey ++ encPath i.path ++ encStr i.algo) =
      .ok (.ledger i) := by
  simp only [List.append_assoc, decodeLedger, decStr_encStr,
    decPubKey_enc fuel i.pubKey _ h, decPath_encPath, decStr_encStr',
    List.isEmpty_nil, if_true]

theorem decodeOffline_enc (fuel : Nat) (i : offlineInfo) (h : pkFuel i.pubKey ≤ fuel) :
    decodeOffline fuel (encStr i.name ++ PubKey.enc i.pubKey ++ encStr i.algo) =
      .ok (.offline i) := by
  simp only [List.append_assoc, decodeOffline, decStr_encStr,
    decPubKey_enc fuel i.pubKey _ h, decStr_encStr', List.isEmpty_nil, if_true]

theorem decodeMulti_enc (fuel : Nat) (i : multiInfo) (h : pkFuel i.pubKey ≤ fuel)
    (hm : ∀ m ∈ i.pubKeys, pkFuel m.pubKey ≤ fuel) :
    decodeMulti fuel
      (encStr i.name ++ PubKey.enc i.pubKey ++ i.threshold :: encMPKList i.pubKeys) =
      .ok (.multi i) := by
  simp only [List.append_assoc, encMPKList, decodeMulti, decStr_encStr,
    decPubKey_enc fuel i.pubKey _ h, decMPKList_enc' fuel i.pubKeys hm,
    List.isEmpty_nil, if_true]

theorem unmarshal_marshal (i : Info) : unmarshalInfo (marshalInfo i) = Except.ok i := by
  cases i with
  | local_ li =>
      have h1 := pkFuel_le_encLen li.pubKey
      simp only [marshalInfo, unmarshalInfo, encInfoBody, lt_self_iff_false, if_false,
        List.length_cons]
      exact decodeLocal_enc _ li (by simp only [List.length_append]; omega)
  | ledger li =>
      have h1 := pkFuel_le_encLen li.pubKey
      simp only [marshalInfo, unmarshalInfo, encInfoBody, lt_self_iff_false, if_false,
        List.length_cons]
      exact decodeLedger_enc _ li (by simp only [List.length_append]; omega)
  | offline oi =>
      have h1 := pkFuel_le_encLen oi.pubKey
      simp only [marshalInfo, unmarshalInfo, encInfoBody, lt_self_iff_false, if_false,
        List.length_cons]
      exact decodeOffline_enc _ oi (by simp only [List.length_append]; omega)
  | multi mi =>
      have h1 := pkFuel_le_encLen mi.pubKey
      simp only [marshalInfo, unmarshalInfo, encInfoBody, lt_self_iff_false, if_false,
        List.length_cons]
      refine decodeMulti_enc _ mi ?_ ?_
      · simp only [List.length_append]; omega
      · intro m hm
        have h2 := pkFuel_le_encLen m.pubKey
        have h3 := encLen_mem_le m mi.pubKeys hm
        simp only [List.length_append, encMPKList, List.length_cons]
        omega

theorem unmarshal_dropLast (t : Nat) (flds : List Nat) :
    unmarshalInfo (((flds.length + 1) :: t :: flds).dropLast) = .error .truncatedInput := by
  rw [List.dropLast_cons₂]
  simp only [unmarshalInfo]
  rw [if_pos (by simp [List.length_dropLast])]

/-! ### The claims -/

/-- C1: decoding the encoding of any record of any of the four variants
succeeds and returns a record equal to the original in every field,
member order of a MultiSig record included. -/
theorem C1_roundtrip (i : Info) : unmarshalInfo (marshalInfo i) = Except.ok i :=
  unmarshal_marshal i

/-- C2 counterexample: on a non-multisig public key, `NewMultiInfo` aborts
with a run-time panic (the failed type assertion
`pub.(multisig.PubKeyMultisigThreshold)`); it does not return a
`NotAMultisigKey` error to the caller, contrary to the claim. -/
theorem C2_counterexample :
    NewMultiInfo "x" (.single [0]) = CtorResult.panicked := rfl

/-- C2 (amended): for every name and every public key that is not a
threshold-aggregate key, `NewMultiInfo` aborts with a run-time panic
(failed type assertion) rather than returning a record or an error. -/
theorem C2_nonmultisig_panics (name : String) (pub : PubKey)
    (h : ∀ k keys, pub ≠ PubKey.multi k keys) :
    NewMultiInfo name pub = CtorResult.panicked := by
  cases pub with
  | single bs => rfl
  | multi k keys => exact absurd rfl (h k keys)

/-- C2 witness: the amended claim at a concrete non-multisig key. -/
theorem C2_witness : NewMultiInfo "w" (.single [1]) = CtorResult.panicked :=
  C2_nonmultisig_panics "w" (.single [1]) (fun _ _ h => PubKey.noConfusion h)

/-- C3: `GetPath` succeeds exactly on HardwareDevice/Ledger records,
returning the stored BIP44 path; Local, Offline, and MultiSig records
fail with the `PathUnavailable` error. -/
theorem C3_getPath_availability :
    (∀ i : Info, (Info.GetPath i).isOk = true ↔ i.GetType = KeyType.typeLedger) ∧
    (∀ i : ledgerInfo, (Info.ledger i).GetPath = .ok i.path) ∧
    (∀ i : localInfo, (Info.local_ i).GetPath = .error pathUnavailableMsg) ∧
    (∀ i : offlineInfo, (Info.offline i).GetPath = .error pathUnavailableMsg) ∧
    (∀ i : multiInfo, (Info.multi i).GetPath = .error pathUnavailableMsg) := by
  refine ⟨fun i => ?_, fun _ => rfl, fun _ => rfl, fun _ => rfl, fun _ => rfl⟩
  cases i <;> simp [Info.GetPath, Info.GetType, Except.isOk, Except.toBool]

/-- C4: on a threshold-aggregate key with members `keys` and threshold
`k`, `NewMultiInfo` returns a MultiSig record with the given name, the
aggregate key itself, threshold `k`, and one member entry per member key
in the same order with weight 1 each — a member that is itself a multisig
aggregate is kept as-is, not recursively expanded. -/
theorem C4_newMultiInfo (name : String) (k : Nat) (keys : List PubKey) :
    NewMultiInfo name (.multi k keys) =
      .ok (.multi ⟨name, .multi k keys, k,
        keys.map (fun pk => ⟨pk, 1⟩)⟩) ∧
    (keys.map (fun pk => (⟨pk, 1⟩ : multisigPubKeyInfo))).length = keys.length :=
  ⟨rfl, by simp⟩

/-- C5: a buffer whose discriminant is none of the four known tags decodes
to `UnknownVariant` (never a record of any variant), and any valid encoded
buffer truncated by one byte decodes to `TruncatedInput`. -/
theorem C5_corruption :
    (∀ (n d : Nat) (rest : List Nat), rest.length + 1 = n →
      d ≠ 0 → d ≠ 1 → d ≠ 2 → d ≠ 3 →
      unmarshalInfo (n :: d :: rest) = .error DecodeErr.unknownVariant) ∧
    (∀ i : Info, unmarshalInfo (marshalInfo i).dropLast = .error DecodeErr.truncatedInput) := by
  constructor
  · intro n d rest hn h0 h1 h2 h3
    subst hn
    obtain ⟨d', rfl⟩ : ∃ d', d = d' + 4 := ⟨d - 4, by omega⟩
    simp only [unmarshalInfo, List.length_cons, lt_self_iff_false, if_false]
  · intro i
    cases i <;> exact unmarshal_dropLast _ _

/-- C5 witness: discriminant `0xFF` is rejected as `UnknownVariant`, and a
concrete encoded record truncated by one byte is rejected as
`TruncatedInput`. -/
theorem C5_witness :
    unmarshalInfo [1, 255] = .error DecodeErr.unknownVariant ∧
    unmarshalInfo (marshalInfo (.offline ⟨"o", .single [7], "ed25519"⟩)).dropLast =
      .error DecodeErr.truncatedInput :=
  ⟨C5_corruption.1 1 255 [] rfl (by decide) (by decide) (by decide) (by decide),
   C5_corruption.2 _⟩

/-- C6: on every variant, `GetAddress` equals the address-derivation
function applied to `GetPubKey`, and repeated calls agree. -/
theorem C6_address_derivation (i : Info) :
    i.GetAddress = deriveAddress i.GetPubKey ∧ i.GetAddress = i.GetAddress :=
  ⟨by cases i <;> rfl, rfl⟩

/-- C7: encoding is deterministic — two calls of `marshalInfo` on the same
logical record yield byte-for-byte identical outputs. -/
theorem C7_deterministic (i : Info) : marshalInfo i = marshalInfo i := rfl

/-- C8: a MultiSig record produced by `NewMultiInfo` from an aggregate key
whose threshold is at most its member count (the invariant the aggregate
key's own constructor establishes) has threshold at most its number of
member entries. -/
theorem C8_threshold_le (name : String) (k : Nat) (keys : List PubKey)
    (m : multiInfo) (hk : k ≤ keys.length)
    (hctor : NewMultiInfo name (.multi k keys) = .ok (.multi m)) :
    m.threshold ≤ m.pubKeys.length := by
  simp only [NewMultiInfo, CtorResult.ok.injEq, Info.multi.injEq] at hctor
  subst hctor
  simpa using hk

/-- C8 witness: the invariant at a concrete 1-of-1 aggregate key. -/
theorem C8_witness :
    (⟨"g", .multi 1 [.single [2]], 1, [⟨.single [2], 1⟩]⟩ : multiInfo).threshold ≤
      (⟨"g", .multi 1 [.single [2]], 1, [⟨.single [2], 1⟩]⟩ : multiInfo).pubKeys.length :=
  C8_threshold_le "g" 1 [.single [2]] _ (by decide) rfl

/-- C9: `GetAlgo` on a MultiSig record is the fixed `MultiAlgo` tag,
whatever the record's fields and member algorithms. -/
theorem C9_multi_algo (i : multiInfo) : (Info.multi i).GetAlgo = MultiAlgo := rfl

/-- C10: the encrypted private-key blob of a Local record influences no
accessor: two Local records differing only in `PrivKeyArmor` agree on
`GetType`, `GetName`, `GetPubKey`, `GetAddress`, `GetAlgo`, and
`GetPath`. -/
theorem C10_armor_noninterference (name : String) (pk : PubKey)
    (a1 a2 : String) (algo : SigningAlgo) :
    (Info.local_ ⟨name, pk, a1, algo⟩).GetType = (Info.local_ ⟨name, pk, a2, algo⟩).GetType ∧
    (Info.local_ ⟨name, pk, a1, algo⟩).GetName = (Info.local_ ⟨name, pk, a2, algo⟩).GetName ∧
    (Info.local_ ⟨name, pk, a1, algo⟩).GetPubKey = (Info.local_ ⟨name, pk, a2, algo⟩).GetPubKey ∧
    (Info.local_ ⟨name, pk, a1, algo⟩).GetAddress = (Info.local_ ⟨name, pk, a2, algo⟩).GetAddress ∧
    (Info.local_ ⟨name, pk, a1, algo⟩).GetAlgo = (Info.local_ ⟨name, pk, a2, algo⟩).GetAlgo ∧
    (Info.local_ ⟨name, pk, a1, algo⟩).GetPath = (Info.local_ ⟨name, pk, a2, algo⟩).GetPath :=
  ⟨rfl, rfl, rfl, rfl, rfl, rfl⟩

end Keyring
